import Mathlib

/-!
# Verification of the Voronoi tessellation core (`src/lib/delaunay.ts`)

A shallow embedding of the deterministic Voronoi-cell generator: seeded RNG
(mulberry32), jittered-grid site sampler, boundary padding, circumcenter
calculator, half-edge cell reconstruction walk, Sutherland-Hodgman polygon
clipper and the cell assembler.  JavaScript `number` arithmetic is modelled
by exact rational arithmetic (`ℚ`); 32-bit integer operations (`|0`,
`Math.imul`, `^`, `>>>`, `|`) are modelled by natural-number arithmetic on
residues modulo 2^32.  The external triangulation library (Delaunator) is
treated, as the design documents do, as an external collaborator: the
generator is parametrised over an arbitrary `triangulate` function.
-/

/-- A point in the rectangle's coordinate space (source: `interface Point`). -/
@[ext]
structure Point where
  x : ℚ
  y : ℚ
deriving DecidableEq, Repr

/-- The default/origin point, used for (unreachable) out-of-range list reads. -/
def origin : Point := ⟨0, 0⟩

/-- A finished Voronoi cell (source: `interface VoronoiCell`). -/
structure VoronoiCell where
  id : ℕ
  seed : Point
  vertices : List Point
deriving DecidableEq, Repr

/-- Squared Euclidean distance, used to state equidistance of circumcenters. -/
def distSq (p q : Point) : ℚ :=
  (p.x - q.x) * (p.x - q.x) + (p.y - q.y) * (p.y - q.y)

/-- Source: `circumcenter(ax, ay, bx, by, cx, cy)`.  Returns the circumcenter
of the triangle `(a, b, c)`, or the centroid when the doubled signed area
`det` is below the fixed epsilon `1e-10` in absolute value. -/
def circumcenter (a b c : Point) : Point :=
  let dx := b.x - a.x
  let dy := b.y - a.y
  let ex := c.x - a.x
  let ey := c.y - a.y
  let bl := dx * dx + dy * dy
  let cl := ex * ex + ey * ey
  let det := dx * ey - dy * ex
  if |det| < 1 / 10000000000 then
    { x := (a.x + b.x + c.x) / 3, y := (a.y + b.y + c.y) / 3 }
  else
    let d := (1 / 2) / det
    { x := a.x + (ey * bl - dy * cl) * d,
      y := a.y + (dx * cl - ex * bl) * d }

/-- Source: `prevHalfedge(e)` — `e % 3 === 0 ? e + 2 : e - 1`. -/
def prevHalfedge (e : ℤ) : ℤ :=
  if e % 3 = 0 then e + 2 else e - 1

/-! ## Sutherland-Hodgman polygon clipping (source: `clipPolygon`) -/

/-- One pass of the per-half-plane loop body of `clipPolygon`: walks the
vertices with the running `prev`, and for each `curr` emits the vertices the
source pushes (`curr`, preceded by `intersect(prev, curr)` on an entering
edge; only `intersect(prev, curr)` on an exiting edge; nothing when both
endpoints are outside). -/
def clipStageGo (inside : Point → Bool) (intersect : Point → Point → Point) :
    Point → List Point → List Point
  | _, [] => []
  | prev, curr :: rest =>
    (if inside curr then
      if !inside prev then [intersect prev curr, curr] else [curr]
    else if inside prev then [intersect prev curr]
    else []) ++ clipStageGo inside intersect curr rest

/-- One half-plane clip stage: `prev` starts at the polygon's last vertex
(`input[input.length - 1]`); an empty input yields an empty output (the
source's `if (input.length === 0) break`). -/
def clipStage (inside : Point → Bool) (intersect : Point → Point → Point)
    (input : List Point) : List Point :=
  match input.getLast? with
  | none => []
  | some prev => clipStageGo inside intersect prev input

/-- Source: `clipPolygon(polygon, width, height)` — clips sequentially
against `x ≥ 0`, `x ≤ width`, `y ≥ 0`, `y ≤ height` with the source's
intersection formulas. -/
def clipPolygon (polygon : List Point) (width height : ℚ) : List Point :=
  let o1 := clipStage (fun p => decide (0 ≤ p.x))
    (fun a b =>
      let t := -a.x / (b.x - a.x)
      { x := 0, y := a.y + t * (b.y - a.y) }) polygon
  let o2 := clipStage (fun p => decide (p.x ≤ width))
    (fun a b =>
      let t := (width - a.x) / (b.x - a.x)
      { x := width, y := a.y + t * (b.y - a.y) }) o1
  let o3 := clipStage (fun p => decide (0 ≤ p.y))
    (fun a b =>
      let t := -a.y / (b.y - a.y)
      { x := a.x + t * (b.x - a.x), y := 0 }) o2
  let o4 := clipStage (fun p => decide (p.y ≤ height))
    (fun a b =>
      let t := (height - a.y) / (b.y - a.y)
      { x := a.x + t * (b.x - a.x), y := height }) o3
  o4

/-! ## Seeded PRNG (source: `hashString`, `mulberry32`)

JavaScript 32-bit operations are modelled on unsigned residues mod `2^32`;
`x | 0` followed later by `>>> 0` preserves the residue, so working with the
unsigned residue throughout is faithful. -/

/-- Source: `hashString(str)` — `h = (Math.imul(31, h) + charCode) | 0`
folded over the character codes, reinterpreted unsigned. -/
def hashString (str : List ℕ) : ℕ :=
  str.foldl (fun h c => (31 * h + c) % 4294967296) 0

/-- The output-mixing of one `mulberry32` call, given the (already advanced)
32-bit state `s`: two xor-shift/multiply rounds, then division by `2^32`. -/
def mulberryMix (s : ℕ) : ℚ :=
  let t1 := ((s ^^^ (s >>> 15)) * (1 ||| s)) % 4294967296
  let t2 := ((t1 + ((t1 ^^^ (t1 >>> 7)) * (61 ||| t1)) % 4294967296) % 4294967296) ^^^ t1
  ((t2 ^^^ (t2 >>> 14)) : ℚ) / 4294967296

/-- The `k`-th output (0-based) of the closure `mulberry32(seed)`.  Each call
advances the state by the additive constant `0x6d2b79f5` and mixes; the mixing
does not feed back into the state, so the state before the `k`-th mix is
`seed + (k+1) * 0x6d2b79f5 (mod 2^32)`. -/
def mulberryStream (seed : ℕ) (k : ℕ) : ℚ :=
  mulberryMix ((seed + (k + 1) * 1831565813) % 4294967296)

/-- The RNG stream the generator consumes: `mulberry32(hashString(seed))`
when a seed is provided, otherwise the ambient entropy source
(`Math.random`), modelled as an arbitrary stream. -/
def randStream (entropy : ℕ → ℚ) (seed? : Option (List ℕ)) : ℕ → ℚ :=
  match seed? with
  | some s => mulberryStream (hashString s)
  | none => entropy

/-! ## Site sampler (source: step 1 of `generateVoronoiCells`) -/

/-- JavaScript `Math.round(Math.sqrt(q))` for `q ≥ 0`, computed exactly on
rationals: the result is the `k` with `(2k-1)^2 ≤ 4q < (2k+1)^2` (ties round
up), which is `(Nat.sqrt ⌊4q⌋ + 1) / 2`. -/
def roundSqrt (q : ℚ) : ℕ :=
  (Nat.sqrt (⌊4 * q⌋).toNat + 1) / 2

/-- Source: `cols = Math.round(Math.sqrt(numCells * aspect))` with
`aspect = width / height`. -/
def colsOf (width height : ℚ) (numCells : ℕ) : ℕ :=
  roundSqrt (numCells * (width / height))

/-- Source: `rows = Math.round(numCells / cols)`.  Only meaningful when
`cols ≥ 1`; at `cols = 0` the source computes `Infinity` and the generator
never reaches a result (see `generateVoronoiCells`). -/
def rowsOf (width height : ℚ) (numCells : ℕ) : ℕ :=
  (⌊(numCells : ℚ) / (colsOf width height numCells : ℚ) + 1 / 2⌋).toNat

/-- The sampled site list.  The source's row-major grid loop pushes one site
per grid cell until `numCells` sites exist, consuming exactly two RNG values
per placed site (x jitter then y jitter), so the `j`-th placed grid site is
at row `j / cols`, column `j % cols` and reads `rand (2j)` and `rand (2j+1)`;
the trailing `while` loop fills any shortfall with uniform points, continuing
the same RNG consumption.  The final list has exactly `numCells` entries
(the source's `seeds.length = numCells` truncation is a no-op). -/
def sampleSites (rand : ℕ → ℚ) (width height : ℚ) (numCells : ℕ) : List Point :=
  let cols := colsOf width height numCells
  let rows := rowsOf width height numCells
  let cellW := width / (cols : ℚ)
  let cellH := height / (rows : ℚ)
  let gridCount := min numCells (rows * cols)
  (List.range numCells).map fun j =>
    if j < gridCount then
      let r := j / cols
      let c := j % cols
      { x := max 1 (min (width - 1)
          (((c : ℚ) + 1 / 2) * cellW + (rand (2 * j) - 1 / 2) * cellW * (7 / 10))),
        y := max 1 (min (height - 1)
          (((r : ℚ) + 1 / 2) * cellH + (rand (2 * j + 1) - 1 / 2) * cellH * (7 / 10))) }
    else
      { x := rand (2 * j) * (width - 2) + 1,
        y := rand (2 * j + 1) * (height - 2) + 1 }

/-- Source: step 2 — the 8 far-outside padding points at distance
`pad = 3 * max(width, height)`. -/
def paddingPoints (width height : ℚ) : List Point :=
  let pad := 3 * max width height
  [ { x := -pad, y := -pad },
    { x := width / 2, y := -pad },
    { x := width + pad, y := -pad },
    { x := width + pad, y := height / 2 },
    { x := width + pad, y := height + pad },
    { x := width / 2, y := height + pad },
    { x := -pad, y := height + pad },
    { x := -pad, y := height / 2 } ]

/-! ## Triangulation adapter and circumcenter table -/

/-- The external triangulator's output (source: `new Delaunator(coords)`):
flat triangle/point-index list and half-edge adjacency table (`-1` meaning
"no neighbor"). -/
structure Triangulation where
  triangles : List ℕ
  halfedges : List ℤ

/-- Source: step 4 — one circumcenter per triangle, indexed by triangle id. -/
def circumcenters (pts : List Point) (triangles : List ℕ) : List Point :=
  (List.range (triangles.length / 3)).map fun t =>
    circumcenter (pts.getD (triangles.getD (3 * t) 0) origin)
      (pts.getD (triangles.getD (3 * t + 1) 0) origin)
      (pts.getD (triangles.getD (3 * t + 2) 0) origin)

/-! ## Point → incident half-edge table (source: step 5) -/

/-- One iteration of the `pointEdge` precompute:
`if (pointEdge[p] === -1 || halfedges[e] === -1) pointEdge[p] = e`.
The `p < n` conjunct models the `Int32Array(n)` bound: out-of-range writes
to a typed array are dropped (and out-of-range reads give `undefined ≠ -1`,
which the guard also reproduces since such a `p` is never written). -/
def pointEdgeStep (triangles : List ℕ) (halfedges : List ℤ) (n : ℕ)
    (pe : ℕ → ℤ) (e : ℕ) : ℕ → ℤ :=
  let p := triangles.getD e 0
  if (pe p = -1 ∨ halfedges.getD e 0 = -1) ∧ p < n then
    Function.update pe p (e : ℤ)
  else
    pe

/-- Source: step 5 — the table `pointEdge`, an `Int32Array(n)` initialised to
`-1`, written by iterating `e` over all half-edges in order. -/
def pointEdgeTable (triangles : List ℕ) (halfedges : List ℤ) (n : ℕ) : ℕ → ℤ :=
  (List.range triangles.length).foldl (pointEdgeStep triangles halfedges n)
    (fun _ => -1)

/-! ## The per-site half-edge walk (source: step 6) -/

/-- Reading `halfedges[e]` at an integer index: in range gives the table
entry; out of range (or negative) gives `undefined` in the source, which
compares unequal to `-1` — modelled by `-2`. -/
def heGet (halfedges : List ℤ) (e : ℤ) : ℤ :=
  if 0 ≤ e then halfedges.getD e.toNat (-2) else -2

/-- The do-while walk around one site, with the source's `safety` counter.
`fuel` is the extra induction handle a shallow embedding needs for a loop
that is not structurally recursive; `walk_terminates` shows the result is
independent of any `fuel ≥ 201`, i.e. the source loop always breaks within
its safety bound.  Each iteration pushes `cc[Math.floor(e / 3)]` (an
out-of-range read, possible only for a malformed table, is modelled by
`origin`), then breaks on the `-1` sentinel, on the safety bound
`++safety > 200`, or on returning to `e0`. -/
def walkAux (halfedges : List ℤ) (cc : List Point) (e0 : ℤ) :
    ℕ → ℤ → ℕ → List Point
  | 0, _, _ => []
  | fuel + 1, e, safety =>
    let v := cc.getD (e.fdiv 3).toNat origin
    let opp := heGet halfedges (prevHalfedge e)
    if opp = -1 then [v]
    else if 200 < safety + 1 then [v]
    else if opp = e0 then [v]
    else v :: walkAux halfedges cc e0 fuel opp (safety + 1)

/-- The walk of source step 6, started at `e0` with `safety = 0`; 201 units
of fuel are enough for any adjacency table (`walk_terminates`). -/
def walk (halfedges : List ℤ) (cc : List Point) (e0 : ℤ) : List Point :=
  walkAux halfedges cc e0 201 e0 0

/-! ## The cell assembler (source: step 6 loop body and the guards) -/

/-- The per-site outcome: `none` when the site has no incident half-edge,
when the walked ring has fewer than 3 vertices, or when the clipped polygon
has fewer than 3 vertices; otherwise the finished cell
`{ id := i, seed := seeds[i], vertices := clipped }`. -/
def cellFor (halfedges : List ℤ) (cc : List Point) (pe : ℕ → ℤ)
    (seeds : List Point) (width height : ℚ) (i : ℕ) : Option VoronoiCell :=
  let e0 := pe i
  if e0 = -1 then none
  else
    let vertices := walk halfedges cc e0
    if vertices.length < 3 then none
    else
      let clipped := clipPolygon vertices width height
      if clipped.length < 3 then none
      else some { id := i, seed := seeds.getD i origin, vertices := clipped }

/-- The output list: the surviving cells for `i = 0 .. numCells-1` in order. -/
def buildCells (halfedges : List ℤ) (cc : List Point) (pe : ℕ → ℤ)
    (seeds : List Point) (width height : ℚ) (numCells : ℕ) : List VoronoiCell :=
  (List.range numCells).filterMap (cellFor halfedges cc pe seeds width height)

/-- Source: `generateVoronoiCells(width, height, numCells = 120, seed?)`,
parametrised over the external triangulator and the ambient entropy source
(`Math.random`, consulted only when no seed is given).  The omitted-argument
defaults are modelled by `Option` arguments resolved with `getD`.

When `colsOf … = 0` the source computes `rows = Math.round(numCells / 0) =
Infinity` and the row-major grid loop `for (r = 0; r < rows; r++)` never
terminates (its inner loop body runs zero times since `cols = 0`), so the
call produces no value: modelled by `none`. -/
def generateVoronoiCells (triangulate : List Point → Triangulation)
    (entropy : ℕ → ℚ) (width height : ℚ)
    (numCells? : Option ℕ) (seed? : Option (List ℕ)) :
    Option (List VoronoiCell) :=
  let numCells := numCells?.getD 120
  let rand := randStream entropy seed?
  if colsOf width height numCells = 0 then
    none
  else
    let seeds := sampleSites rand width height numCells
    let allPoints := seeds ++ paddingPoints width height
    let tri := triangulate allPoints
    let cc := circumcenters allPoints tri.triangles
    let pe := pointEdgeTable tri.triangles tri.halfedges allPoints.length
    some (buildCells tri.halfedges cc pe seeds width height numCells)

/-! ## Helper lemmas -/

/-- Unfolding of one iteration of the half-edge walk. -/
theorem walkAux_succ (halfedges : List ℤ) (cc : List Point) (e0 : ℤ)
    (fuel : ℕ) (e : ℤ) (safety : ℕ) :
    walkAux halfedges cc e0 (fuel + 1) e safety =
      (let v := cc.getD (e.fdiv 3).toNat origin
       let opp := heGet halfedges (prevHalfedge e)
       if opp = -1 then [v]
       else if 200 < safety + 1 then [v]
       else if opp = e0 then [v]
       else v :: walkAux halfedges cc e0 fuel opp (safety + 1)) := rfl

/-- The walk's result is independent of the fuel as soon as the fuel covers
the remaining budget of the `safety` counter. -/
theorem walkAux_stable (halfedges : List ℤ) (cc : List Point) (e0 : ℤ) :
    ∀ f1 f2 : ℕ, ∀ e : ℤ, ∀ s : ℕ, 0 < f1 → 0 < f2 → 201 ≤ f1 + s → 201 ≤ f2 + s →
      walkAux halfedges cc e0 f1 e s = walkAux halfedges cc e0 f2 e s := by
  intro f1
  induction f1 with
  | zero => intro f2 e s h1; exact absurd h1 (lt_irrefl 0)
  | succ f ih =>
    intro f2 e s _ h2 hf1 hf2
    obtain ⟨g, rfl⟩ : ∃ g, f2 = g + 1 := ⟨f2 - 1, by omega⟩
    rw [walkAux_succ, walkAux_succ]
    dsimp only
    split_ifs with hopp hs he0
    · rfl
    · rfl
    · rfl
    · exact congrArg (List.cons _)
        (ih g _ (s + 1) (by omega) (by omega) (by omega) (by omega))

/-- The walk pushes at most one vertex per unit of fuel. -/
theorem walkAux_length_le (halfedges : List ℤ) (cc : List Point) (e0 : ℤ) :
    ∀ f : ℕ, ∀ e : ℤ, ∀ s : ℕ,
      (walkAux halfedges cc e0 f e s).length ≤ f := by
  intro f
  induction f with
  | zero => intro e s; simp [walkAux]
  | succ f ih =>
    intro e s
    rw [walkAux_succ]
    dsimp only
    split_ifs
    · simp
    · simp
    · simp
    · simpa using Nat.succ_le_succ (ih _ (s + 1))

/-- C5.  Walk safety bound: for every adjacency table (well-formed,
malformed or adversarial) and every starting half-edge `e0`, the per-site
half-edge walk terminates: the loop's result is already stable at the fixed
safety bound (201 iterations, i.e. `++safety > 200`), so any larger fuel
gives the same answer, and at most 201 vertices are ever pushed. -/
theorem walk_terminates (halfedges : List ℤ) (cc : List Point) (e0 : ℤ) :
    (∀ fuel : ℕ, 201 ≤ fuel →
      walkAux halfedges cc e0 fuel e0 0 = walk halfedges cc e0) ∧
    (walk halfedges cc e0).length ≤ 201 := by
  constructor
  · intro fuel hfuel
    exact walkAux_stable halfedges cc e0 fuel 201 e0 0 (by omega) (by omega)
      (by omega) (by omega)
  · exact walkAux_length_le halfedges cc e0 201 e0 0

/-- Witness for C5 at a concrete (empty, hence thoroughly malformed)
adjacency table: fuel 300 gives the same walk as the safety bound. -/
theorem walk_terminates_witness :
    walkAux [] [] 0 300 0 0 = walk [] [] 0 ∧ (walk [] [] 0).length ≤ 201 :=
  ⟨(walk_terminates [] [] 0).1 300 (by norm_num), (walk_terminates [] [] 0).2⟩

/-- C10.  Implicit default cell count: omitting the `numCells` argument is
the same as passing 120, for every width, height, seed argument,
triangulator and entropy source. -/
theorem generateVoronoiCells_default_numCells
    (triangulate : List Point → Triangulation) (entropy : ℕ → ℚ)
    (width height : ℚ) (seed? : Option (List ℕ)) :
    generateVoronoiCells triangulate entropy width height none seed? =
      generateVoronoiCells triangulate entropy width height (some 120) seed? := rfl

/-- C1.  Determinism: with a provided seed the generator's output does not
depend on the ambient entropy source at all — two independent calls (each
with its own `Math.random`) return identical cell sequences (same ids, same
seed coordinates, same vertex sequences in the same order). -/
theorem generateVoronoiCells_deterministic
    (triangulate : List Point → Triangulation) (entropy1 entropy2 : ℕ → ℚ)
    (width height : ℚ) (numCells : ℕ) (seed : List ℕ)
    (_hw : 0 < width) (_hh : 0 < height) (_hn : 1 ≤ numCells) :
    generateVoronoiCells triangulate entropy1 width height (some numCells) (some seed) =
      generateVoronoiCells triangulate entropy2 width height (some numCells) (some seed) := rfl

/-- Witness for C1 at `width = 4`, `height = 3`, `numCells = 1`,
`seed = "a"` and two different entropy sources. -/
theorem generateVoronoiCells_deterministic_witness :
    (0 : ℚ) < 4 ∧ (0 : ℚ) < 3 ∧ 1 ≤ 1 ∧
    generateVoronoiCells (fun _ => ⟨[], []⟩) (fun _ => 0) 4 3 (some 1) (some [97]) =
      generateVoronoiCells (fun _ => ⟨[], []⟩) (fun _ => 1 / 2) 4 3 (some 1) (some [97]) :=
  ⟨by norm_num, by norm_num, le_refl 1,
    generateVoronoiCells_deterministic (fun _ => ⟨[], []⟩) (fun _ => 0) (fun _ => 1 / 2)
      4 3 1 [97] (by norm_num) (by norm_num) (le_refl 1)⟩

/-- At `width = 1`, `height = 5`, `numCells = 1` the sampler computes
`cols = Math.round(Math.sqrt(1 * (1/5))) = 0`. -/
theorem colsOf_one_five_one : colsOf 1 5 1 = 0 := by
  unfold colsOf roundSqrt
  norm_num

/-- C4.  The site sampler's `cols` guard is missing: at `width = 1`,
`height = 5`, `numCells = 1` (all preconditions hold) the source computes
`cols = 0`, then `rows = Math.round(1 / 0) = Infinity`, and the row loop
`for (let r = 0; r < rows; r++)` never terminates, so the generator
produces no value (modelled by `none`). -/
theorem colsOf_zero_divergence :
    colsOf 1 5 1 = 0 ∧
    ∀ (triangulate : List Point → Triangulation) (entropy : ℕ → ℚ)
      (seed? : Option (List ℕ)),
      generateVoronoiCells triangulate entropy 1 5 (some 1) seed? = none := by
  refine ⟨colsOf_one_five_one, ?_⟩
  intro triangulate entropy seed?
  simp [generateVoronoiCells, colsOf_one_five_one]

/-- An element selected by `getLast?` is a member of the list. -/
theorem getLast?_mem_of_eq {α : Type} {l : List α} {a : α}
    (h : l.getLast? = some a) : a ∈ l := by
  obtain ⟨hne, rfl⟩ := List.mem_getLast?_eq_getLast (Option.mem_def.mpr h)
  exact List.getLast_mem hne

/-- A clip stage leaves a polygon whose vertices are all inside unchanged. -/
theorem clipStageGo_all_inside (inside : Point → Bool)
    (intersect : Point → Point → Point) :
    ∀ (l : List Point) (prev : Point), inside prev = true →
      (∀ q ∈ l, inside q = true) →
      clipStageGo inside intersect prev l = l := by
  intro l
  induction l with
  | nil => intro prev _ _; rfl
  | cons curr rest ih =>
    intro prev hprev hall
    have hc : inside curr = true := hall curr (List.mem_cons_self _ _)
    rw [clipStageGo, hc, hprev]
    simp only [Bool.not_true, Bool.false_eq_true, if_false, if_true,
      List.singleton_append, List.cons.injEq, true_and]
    exact ih curr hc fun q hq => hall q (List.mem_cons_of_mem _ hq)

/-- A clip stage annihilates a polygon whose vertices are all outside. -/
theorem clipStageGo_all_outside (inside : Point → Bool)
    (intersect : Point → Point → Point) :
    ∀ (l : List Point) (prev : Point), inside prev = false →
      (∀ q ∈ l, inside q = false) →
      clipStageGo inside intersect prev l = [] := by
  intro l
  induction l with
  | nil => intro prev _ _; rfl
  | cons curr rest ih =>
    intro prev hprev hall
    have hc : inside curr = false := hall curr (List.mem_cons_self _ _)
    rw [clipStageGo, hc, hprev]
    simp only [Bool.false_eq_true, if_false, List.nil_append]
    exact ih curr hc fun q hq => hall q (List.mem_cons_of_mem _ hq)

/-- `clipStage` on an all-inside polygon is the identity. -/
theorem clipStage_all_inside (inside : Point → Bool)
    (intersect : Point → Point → Point) (l : List Point)
    (hall : ∀ q ∈ l, inside q = true) :
    clipStage inside intersect l = l := by
  unfold clipStage
  cases h : l.getLast? with
  | none => simp [List.getLast?_eq_none_iff.mp h]
  | some prev =>
    exact clipStageGo_all_inside inside intersect l prev
      (hall prev (getLast?_mem_of_eq h)) hall

/-- `clipStage` on an all-outside polygon is empty. -/
theorem clipStage_all_outside (inside : Point → Bool)
    (intersect : Point → Point → Point) (l : List Point)
    (hall : ∀ q ∈ l, inside q = false) :
    clipStage inside intersect l = [] := by
  unfold clipStage
  cases h : l.getLast? with
  | none => rfl
  | some prev =>
    exact clipStageGo_all_outside inside intersect l prev
      (hall prev (getLast?_mem_of_eq h)) hall

/-- C8.  Clipper identity and annihilation: a polygon whose vertices all lie
in the rectangle is returned unchanged (same vertices, same order); a
polygon whose vertices all have `x < 0` is clipped to the empty polygon. -/
theorem clipPolygon_identity_annihilation (polygon : List Point)
    (width height : ℚ) :
    ((∀ p ∈ polygon, 0 ≤ p.x ∧ p.x ≤ width ∧ 0 ≤ p.y ∧ p.y ≤ height) →
      clipPolygon polygon width height = polygon) ∧
    ((∀ p ∈ polygon, p.x < 0) → clipPolygon polygon width height = []) := by
  constructor
  · intro hall
    unfold clipPolygon
    dsimp only
    rw [clipStage_all_inside _ _ polygon
        (fun q hq => decide_eq_true (hall q hq).1)]
    rw [clipStage_all_inside _ _ polygon
        (fun q hq => decide_eq_true (hall q hq).2.1)]
    rw [clipStage_all_inside _ _ polygon
        (fun q hq => decide_eq_true (hall q hq).2.2.1)]
    rw [clipStage_all_inside _ _ polygon
        (fun q hq => decide_eq_true (hall q hq).2.2.2)]
  · intro hall
    unfold clipPolygon
    dsimp only
    rw [clipStage_all_outside _ _ polygon
        (fun q hq => decide_eq_false (not_le.mpr (hall q hq)))]
    rfl

/-- Witness for C8: a triangle inside the rectangle `[0,3] × [0,3]` is
unchanged; a triangle entirely at `x < 0` is annihilated. -/
theorem clipPolygon_identity_annihilation_witness :
    clipPolygon [⟨1, 1⟩, ⟨2, 1⟩, ⟨1, 2⟩] 3 3 = [⟨1, 1⟩, ⟨2, 1⟩, ⟨1, 2⟩] ∧
    clipPolygon [⟨-1, 1⟩, ⟨-2, 1⟩, ⟨-1, 2⟩] 3 3 = [] :=
  ⟨(clipPolygon_identity_annihilation [⟨1, 1⟩, ⟨2, 1⟩, ⟨1, 2⟩] 3 3).1 (by
      intro p hp
      fin_cases hp <;> norm_num),
   (clipPolygon_identity_annihilation [⟨-1, 1⟩, ⟨-2, 1⟩, ⟨-1, 2⟩] 3 3).2 (by
      intro p hp
      fin_cases hp <;> norm_num)⟩

/-- Every vertex a clip stage emits satisfies the stage's own half-plane
property `Q` and preserves any property `P` that the stage's intersection
points inherit from straddling endpoint pairs. -/
theorem clipStageGo_sound {inside : Point → Bool}
    {intersect : Point → Point → Point} {P Q : Point → Prop}
    (hQ : ∀ p, inside p = true → Q p)
    (hQi : ∀ a b, inside a ≠ inside b → Q (intersect a b))
    (hPi : ∀ a b, P a → P b → inside a ≠ inside b → P (intersect a b)) :
    ∀ (l : List Point) (prev : Point), P prev → (∀ q ∈ l, P q) →
      ∀ p ∈ clipStageGo inside intersect prev l, P p ∧ Q p := by
  intro l
  induction l with
  | nil => intro prev _ _ p hp; simp [clipStageGo] at hp
  | cons curr rest ih =>
    intro prev hprev hall p hp
    have hPcurr : P curr := hall curr (List.mem_cons_self _ _)
    have hrest : ∀ q ∈ rest, P q := fun q hq => hall q (List.mem_cons_of_mem _ hq)
    rw [clipStageGo] at hp
    rcases List.mem_append.mp hp with hpre | hrec
    · by_cases hc : inside curr = true
      · by_cases hpv : inside prev = true
        · rw [hc, hpv] at hpre
          simp at hpre
          cases hpre
          exact ⟨hPcurr, hQ _ hc⟩
        · have hpv' : inside prev = false := eq_false_of_ne_true hpv
          rw [hc, hpv'] at hpre
          simp at hpre
          have hne : inside prev ≠ inside curr := by rw [hc, hpv']; simp
          rcases hpre with rfl | rfl
          · exact ⟨hPi prev curr hprev hPcurr hne, hQi prev curr hne⟩
          · exact ⟨hPcurr, hQ _ hc⟩
      · have hc' : inside curr = false := eq_false_of_ne_true hc
        by_cases hpv : inside prev = true
        · rw [hc', hpv] at hpre
          simp at hpre
          have hne : inside prev ≠ inside curr := by rw [hc', hpv]; simp
          cases hpre
          exact ⟨hPi prev curr hprev hPcurr hne, hQi prev curr hne⟩
        · have hpv' : inside prev = false := eq_false_of_ne_true hpv
          rw [hc', hpv'] at hpre
          simp at hpre
    · exact ih curr hPcurr hrest p hrec

/-- Stage-level version of `clipStageGo_sound`. -/
theorem clipStage_sound {inside : Point → Bool}
    {intersect : Point → Point → Point} {P Q : Point → Prop}
    (hQ : ∀ p, inside p = true → Q p)
    (hQi : ∀ a b, inside a ≠ inside b → Q (intersect a b))
    (hPi : ∀ a b, P a → P b → inside a ≠ inside b → P (intersect a b))
    (l : List Point) (hall : ∀ q ∈ l, P q) :
    ∀ p ∈ clipStage inside intersect l, P p ∧ Q p := by
  unfold clipStage
  cases h : l.getLast? with
  | none => intro p hp; simp at hp
  | some prev =>
    exact clipStageGo_sound hQ hQi hPi l prev
      (hall prev (getLast?_mem_of_eq h)) hall

/-- The interpolation parameter `(c - a) / (b - a)` lies in `[0, 1]` when
`c` is between `a` and `b`, increasing case. -/
theorem t_mem_unit_of_le {a b c : ℚ} (hab : a < b) (h1 : a ≤ c) (h2 : c ≤ b) :
    0 ≤ (c - a) / (b - a) ∧ (c - a) / (b - a) ≤ 1 := by
  have hd : 0 < b - a := by linarith
  exact ⟨div_nonneg (by linarith) hd.le, by rw [div_le_one hd]; linarith⟩

/-- The interpolation parameter `(c - a) / (b - a)` lies in `[0, 1]` when
`c` is between `b` and `a`, decreasing case. -/
theorem t_mem_unit_of_ge {a b c : ℚ} (hba : b < a) (h1 : b ≤ c) (h2 : c ≤ a) :
    0 ≤ (c - a) / (b - a) ∧ (c - a) / (b - a) ≤ 1 := by
  have heq : (c - a) / (b - a) = (a - c) / (a - b) := by
    rw [show c - a = -(a - c) by ring, show b - a = -(a - b) by ring,
      neg_div_neg_eq]
  have hd : 0 < a - b := by linarith
  rw [heq]
  exact ⟨div_nonneg (by linarith) hd.le, by rw [div_le_one hd]; linarith⟩

/-- A point interpolated with a parameter in `[0, 1]` between two values in
an interval stays in the interval. -/
theorem interp_mem {lo hi a b t : ℚ} (ht0 : 0 ≤ t) (ht1 : t ≤ 1)
    (ha : lo ≤ a) (ha' : a ≤ hi) (hb : lo ≤ b) (hb' : b ≤ hi) :
    lo ≤ a + t * (b - a) ∧ a + t * (b - a) ≤ hi := by
  constructor <;> nlinarith

/-- Decidable straddling: two points on opposite sides of a `≤`-boundary. -/
theorem straddle_of_decide_ne {u v bound : ℚ}
    (h : decide (bound ≤ u) ≠ decide (bound ≤ v)) :
    (u < bound ∧ bound ≤ v) ∨ (bound ≤ u ∧ v < bound) := by
  by_cases hu : bound ≤ u <;> by_cases hv : bound ≤ v <;>
    simp [hu, hv] at h ⊢ <;> [exact not_le.mp hv; exact not_le.mp hu]

/-- Decidable straddling, upper-bound form. -/
theorem straddle_of_decide_ne' {u v bound : ℚ}
    (h : decide (u ≤ bound) ≠ decide (v ≤ bound)) :
    (u ≤ bound ∧ bound < v) ∨ (bound < u ∧ v ≤ bound) := by
  by_cases hu : u ≤ bound <;> by_cases hv : v ≤ bound <;>
    simp [hu, hv] at h ⊢ <;> [exact not_le.mp hv; exact not_le.mp hu]

/-- Every vertex produced by `clipPolygon` lies in `[0, width] × [0, height]`
(for a nonnegative rectangle), whatever the input polygon. -/
theorem clipPolygon_mem_box (polygon : List Point) (width height : ℚ)
    (hw : 0 ≤ width) (hh : 0 ≤ height) :
    ∀ p ∈ clipPolygon polygon width height,
      0 ≤ p.x ∧ p.x ≤ width ∧ 0 ≤ p.y ∧ p.y ≤ height := by
  have h1 := @clipStage_sound
    (fun p => decide (0 ≤ p.x))
    (fun a b =>
      let t := -a.x / (b.x - a.x)
      { x := 0, y := a.y + t * (b.y - a.y) })
    (fun _ => True) (fun p => 0 ≤ p.x)
    (fun p hp => of_decide_eq_true hp)
    (fun a b _ => le_refl 0)
    (fun _ _ _ _ _ => trivial)
    polygon (fun _ _ => trivial)
  have h2 := @clipStage_sound
    (fun p => decide (p.x ≤ width))
    (fun a b =>
      let t := (width - a.x) / (b.x - a.x)
      { x := width, y := a.y + t * (b.y - a.y) })
    (fun p => 0 ≤ p.x) (fun p => p.x ≤ width)
    (fun p hp => of_decide_eq_true hp)
    (fun a b _ => le_refl width)
    (fun _ _ _ _ _ => hw)
    _ (fun q hq => (h1 q hq).2)
  have h3 := @clipStage_sound
    (fun p => decide (0 ≤ p.y))
    (fun a b =>
      let t := -a.y / (b.y - a.y)
      { x := a.x + t * (b.x - a.x), y := 0 })
    (fun p => 0 ≤ p.x ∧ p.x ≤ width) (fun p => 0 ≤ p.y)
    (fun p hp => of_decide_eq_true hp)
    (fun a b _ => le_refl 0)
    (fun a b ha hb hne => by
      have ht : 0 ≤ -a.y / (b.y - a.y) ∧ -a.y / (b.y - a.y) ≤ 1 := by
        rw [show -a.y = 0 - a.y by ring]
        rcases straddle_of_decide_ne hne with ⟨h1', h2'⟩ | ⟨h1', h2'⟩
        · exact t_mem_unit_of_le (by linarith) h1'.le h2'
        · exact t_mem_unit_of_ge (by linarith) h2'.le h1'
      exact interp_mem ht.1 ht.2 ha.1 ha.2 hb.1 hb.2)
    _ (fun q hq => h2 q hq)
  have h4 := @clipStage_sound
    (fun p => decide (p.y ≤ height))
    (fun a b =>
      let t := (height - a.y) / (b.y - a.y)
      { x := a.x + t * (b.x - a.x), y := height })
    (fun p => (0 ≤ p.x ∧ p.x ≤ width) ∧ 0 ≤ p.y) (fun p => p.y ≤ height)
    (fun p hp => of_decide_eq_true hp)
    (fun a b _ => le_refl height)
    (fun a b ha hb hne => by
      refine ⟨?_, hh⟩
      have ht : 0 ≤ (height - a.y) / (b.y - a.y) ∧
          (height - a.y) / (b.y - a.y) ≤ 1 := by
        rcases straddle_of_decide_ne' hne with ⟨h1', h2'⟩ | ⟨h1', h2'⟩
        · exact t_mem_unit_of_le (by linarith) h1' h2'.le
        · exact t_mem_unit_of_ge (by linarith) h2' h1'.le
      exact interp_mem ht.1 ht.2 ha.1.1 ha.1.2 hb.1.1 hb.1.2)
    _ (fun q hq => h3 q hq)
  unfold clipPolygon
  dsimp only
  intro p hp
  have := h4 p hp
  exact ⟨this.1.1.1, this.1.1.2, this.1.2, this.2⟩

/-- Characterisation of a successful per-site outcome: the emitted cell's id
is the site index, its seed is `seeds[i]`, and its vertices are the clipped
walk with at least 3 vertices. -/
theorem cellFor_eq_some {halfedges : List ℤ} {cc : List Point} {pe : ℕ → ℤ}
    {seeds : List Point} {width height : ℚ} {i : ℕ} {cell : VoronoiCell}
    (h : cellFor halfedges cc pe seeds width height i = some cell) :
    cell.id = i ∧ cell.seed = seeds.getD i origin ∧
    cell.vertices = clipPolygon (walk halfedges cc (pe i)) width height ∧
    3 ≤ cell.vertices.length := by
  unfold cellFor at h
  dsimp only at h
  split_ifs at h with h1 h2 h3
  have h' := Option.some.inj h
  subst h'
  exact ⟨rfl, rfl, rfl, not_lt.mp h3⟩

/-- A successful generation is exactly the assembled cell list over the
sampled sites. -/
theorem mem_of_generate {triangulate : List Point → Triangulation}
    {entropy : ℕ → ℚ} {width height : ℚ} {numCells? : Option ℕ}
    {seed? : Option (List ℕ)} {cells : List VoronoiCell}
    (hgen : generateVoronoiCells triangulate entropy width height numCells?
      seed? = some cells) :
    ∃ halfedges cc pe, cells =
      buildCells halfedges cc pe
        (sampleSites (randStream entropy seed?) width height
          (numCells?.getD 120))
        width height (numCells?.getD 120) := by
  unfold generateVoronoiCells at hgen
  dsimp only at hgen
  split_ifs at hgen with h
  exact ⟨_, _, _, (Option.some.inj hgen).symm⟩

/-- C2.  Output id invariant: in every returned sequence the ids are
strictly ascending (hence no duplicates), the sequence has at most
`numCells` entries, every id lies in `[0, numCells)`, and every cell's seed
is the sampled site point at index `id` among the first `numCells` sites
(so never one of the 8 padding points). -/
theorem generateVoronoiCells_id_invariant
    (triangulate : List Point → Triangulation) (entropy : ℕ → ℚ)
    (width height : ℚ) (numCells? : Option ℕ) (seed? : Option (List ℕ))
    (cells : List VoronoiCell)
    (hgen : generateVoronoiCells triangulate entropy width height numCells?
      seed? = some cells) :
    List.Pairwise (fun c d : VoronoiCell => c.id < d.id) cells ∧
    cells.length ≤ numCells?.getD 120 ∧
    ∀ cell ∈ cells, cell.id < numCells?.getD 120 ∧
      cell.seed = (sampleSites (randStream entropy seed?) width height
        (numCells?.getD 120)).getD cell.id origin := by
  obtain ⟨he, cc, pe, rfl⟩ := mem_of_generate hgen
  refine ⟨?_, ?_, ?_⟩
  · unfold buildCells
    refine List.Pairwise.filterMap _ ?_ (List.pairwise_lt_range _)
    intro a b hab c hc d hd
    have hc' := cellFor_eq_some (Option.mem_def.mp hc)
    have hd' := cellFor_eq_some (Option.mem_def.mp hd)
    rw [hc'.1, hd'.1]
    exact hab
  · unfold buildCells
    calc (List.filterMap _ (List.range (numCells?.getD 120))).length
        ≤ (List.range (numCells?.getD 120)).length :=
          List.length_filterMap_le _ _
      _ = numCells?.getD 120 := List.length_range _
  · intro cell hcell
    unfold buildCells at hcell
    obtain ⟨i, hi, hsome⟩ := List.mem_filterMap.mp hcell
    have h := cellFor_eq_some hsome
    rw [h.1]
    exact ⟨List.mem_range.mp hi, h.2.1⟩

/-- C3.  Containment: every vertex of every emitted cell lies inside
`[0, width] × [0, height]`, for positive dimensions and any cell count. -/
theorem generateVoronoiCells_containment
    (triangulate : List Point → Triangulation) (entropy : ℕ → ℚ)
    (width height : ℚ) (numCells? : Option ℕ) (seed? : Option (List ℕ))
    (hw : 0 < width) (hh : 0 < height) (_hn : 1 ≤ numCells?.getD 120)
    (cells : List VoronoiCell)
    (hgen : generateVoronoiCells triangulate entropy width height numCells?
      seed? = some cells) :
    ∀ cell ∈ cells, ∀ p ∈ cell.vertices,
      0 ≤ p.x ∧ p.x ≤ width ∧ 0 ≤ p.y ∧ p.y ≤ height := by
  obtain ⟨he, cc, pe, rfl⟩ := mem_of_generate hgen
  intro cell hcell p hp
  unfold buildCells at hcell
  obtain ⟨i, _, hsome⟩ := List.mem_filterMap.mp hcell
  have h := cellFor_eq_some hsome
  rw [h.2.2.1] at hp
  exact clipPolygon_mem_box _ width height hw.le hh.le p hp

/-- C9.  Minimum polygon size: every emitted cell has at least 3 vertices;
a site whose walked ring has fewer than 3 circumcenters, or whose polygon is
clipped to fewer than 3 vertices, produces no cell at all. -/
theorem generateVoronoiCells_min_vertices :
    (∀ (triangulate : List Point → Triangulation) (entropy : ℕ → ℚ)
        (width height : ℚ) (numCells? : Option ℕ) (seed? : Option (List ℕ))
        (cells : List VoronoiCell),
      generateVoronoiCells triangulate entropy width height numCells? seed? =
        some cells →
      ∀ cell ∈ cells, 3 ≤ cell.vertices.length) ∧
    (∀ (halfedges : List ℤ) (cc : List Point) (pe : ℕ → ℤ)
        (seeds : List Point) (width height : ℚ) (i : ℕ),
      (walk halfedges cc (pe i)).length < 3 ∨
        (clipPolygon (walk halfedges cc (pe i)) width height).length < 3 →
      cellFor halfedges cc pe seeds width height i = none) := by
  constructor
  · intro tri ent w h n? s? cells hgen cell hcell
    obtain ⟨he, cc, pe, rfl⟩ := mem_of_generate hgen
    unfold buildCells at hcell
    obtain ⟨i, _, hsome⟩ := List.mem_filterMap.mp hcell
    exact (cellFor_eq_some hsome).2.2.2
  · intro he cc pe seeds w h i hlt
    unfold cellFor
    dsimp only
    split_ifs with h1 h2 h3
    · rfl
    · rfl
    · rfl
    · exact absurd hlt (by push_neg; exact ⟨not_lt.mp h2, not_lt.mp h3⟩)

/-- A fully concrete successful run (empty triangulation, so every site is
dropped for lack of an incident half-edge): used to instantiate the
generator-level theorems. -/
theorem gen_concrete_eval :
    generateVoronoiCells (fun _ => ⟨[], []⟩) (fun _ => 0) 4 3 (some 1) none =
      some [] := by
  have hcols : colsOf 4 3 ((some 1 : Option ℕ).getD 120) ≠ 0 := by
    unfold colsOf roundSqrt
    norm_num
    rw [show ((5 : ℤ).toNat) = (5 : ℕ) from rfl]
    norm_num
  unfold generateVoronoiCells
  dsimp only
  rw [if_neg hcols]
  rfl

/-- Witness for C2, instantiated at the concrete run `gen_concrete_eval`. -/
theorem generateVoronoiCells_id_invariant_witness :
    List.Pairwise (fun c d : VoronoiCell => c.id < d.id) [] ∧
    ([] : List VoronoiCell).length ≤ (some 1 : Option ℕ).getD 120 ∧
    ∀ cell ∈ ([] : List VoronoiCell), cell.id < (some 1 : Option ℕ).getD 120 ∧
      cell.seed = (sampleSites (randStream (fun _ => 0) none) 4 3
        ((some 1 : Option ℕ).getD 120)).getD cell.id origin :=
  generateVoronoiCells_id_invariant (fun _ => ⟨[], []⟩) (fun _ => 0) 4 3
    (some 1) none [] gen_concrete_eval

/-- Witness for C3, instantiated at the concrete run `gen_concrete_eval`. -/
theorem generateVoronoiCells_containment_witness :
    (0 : ℚ) < 4 ∧ (0 : ℚ) < 3 ∧ 1 ≤ (some 1 : Option ℕ).getD 120 ∧
    ∀ cell ∈ ([] : List VoronoiCell), ∀ p ∈ cell.vertices,
      0 ≤ p.x ∧ p.x ≤ 4 ∧ 0 ≤ p.y ∧ p.y ≤ 3 :=
  ⟨by norm_num, by norm_num, by norm_num,
    generateVoronoiCells_containment (fun _ => ⟨[], []⟩) (fun _ => 0) 4 3
      (some 1) none (by norm_num) (by norm_num) (by norm_num) []
      gen_concrete_eval⟩

/-- Witness for C9: the first part at the concrete run, the second at a
concrete table whose walk stops after one vertex. -/
theorem generateVoronoiCells_min_vertices_witness :
    (∀ cell ∈ ([] : List VoronoiCell), 3 ≤ cell.vertices.length) ∧
    cellFor [0, 0, -1] [] (fun _ => 0) [] 4 3 0 = none :=
  ⟨generateVoronoiCells_min_vertices.1 (fun _ => ⟨[], []⟩) (fun _ => 0) 4 3
      (some 1) none [] gen_concrete_eval,
   generateVoronoiCells_min_vertices.2 [0, 0, -1] [] (fun _ => 0) [] 4 3 0
     (Or.inl (by decide))⟩

/-- The difference of two squared distances from a common point is linear in
that point (the perpendicular-bisector equation). -/
theorem distSq_sub_eq (q a b : Point) :
    distSq q a - distSq q b =
      2 * ((b.x - a.x) * (q.x - a.x) + (b.y - a.y) * (q.y - a.y)) -
        ((b.x - a.x) * (b.x - a.x) + (b.y - a.y) * (b.y - a.y)) := by
  unfold distSq
  ring

/-- C7.  Circumcenter correctness with centroid fallback: when the doubled
signed area `det` satisfies `|det| ≥ 1e-10` the function returns the unique
point equidistant from the triangle's three vertices; when `|det| < 1e-10`
it returns the arithmetic centroid.  In both cases it is total. -/
theorem circumcenter_spec (a b c : Point) :
    (1 / 10000000000 ≤
        |(b.x - a.x) * (c.y - a.y) - (b.y - a.y) * (c.x - a.x)| →
      distSq (circumcenter a b c) a = distSq (circumcenter a b c) b ∧
      distSq (circumcenter a b c) a = distSq (circumcenter a b c) c ∧
      ∀ q : Point, distSq q a = distSq q b → distSq q a = distSq q c →
        q = circumcenter a b c) ∧
    (|(b.x - a.x) * (c.y - a.y) - (b.y - a.y) * (c.x - a.x)| <
        1 / 10000000000 →
      circumcenter a b c =
        { x := (a.x + b.x + c.x) / 3, y := (a.y + b.y + c.y) / 3 }) := by
  constructor
  · intro hdet
    have hne : (b.x - a.x) * (c.y - a.y) - (b.y - a.y) * (c.x - a.x) ≠ 0 := by
      intro h0
      rw [h0] at hdet
      norm_num at hdet
    have hab : distSq (circumcenter a b c) a = distSq (circumcenter a b c) b := by
      unfold circumcenter
      dsimp only
      rw [if_neg (not_lt.mpr hdet)]
      unfold distSq
      dsimp only
      field_simp
      ring
    have hac : distSq (circumcenter a b c) a = distSq (circumcenter a b c) c := by
      unfold circumcenter
      dsimp only
      rw [if_neg (not_lt.mpr hdet)]
      unfold distSq
      dsimp only
      field_simp
      ring
    refine ⟨hab, hac, ?_⟩
    intro q h1 h2
    have hq1 : distSq q a - distSq q b = 0 := by rw [h1, sub_self]
    have hq2 : distSq q a - distSq q c = 0 := by rw [h2, sub_self]
    have hp1 : distSq (circumcenter a b c) a - distSq (circumcenter a b c) b = 0 := by
      rw [hab, sub_self]
    have hp2 : distSq (circumcenter a b c) a - distSq (circumcenter a b c) c = 0 := by
      rw [hac, sub_self]
    rw [distSq_sub_eq] at hq1 hp1
    rw [distSq_sub_eq] at hq2 hp2
    have hsub1 : (b.x - a.x) * (q.x - (circumcenter a b c).x) +
        (b.y - a.y) * (q.y - (circumcenter a b c).y) = 0 := by
      linear_combination (hq1 - hp1) / 2
    have hsub2 : (c.x - a.x) * (q.x - (circumcenter a b c).x) +
        (c.y - a.y) * (q.y - (circumcenter a b c).y) = 0 := by
      linear_combination (hq2 - hp2) / 2
    have hx : ((b.x - a.x) * (c.y - a.y) - (b.y - a.y) * (c.x - a.x)) *
        (q.x - (circumcenter a b c).x) = 0 := by
      linear_combination (c.y - a.y) * hsub1 - (b.y - a.y) * hsub2
    have hy : ((b.x - a.x) * (c.y - a.y) - (b.y - a.y) * (c.x - a.x)) *
        (q.y - (circumcenter a b c).y) = 0 := by
      linear_combination (b.x - a.x) * hsub2 - (c.x - a.x) * hsub1
    have hx' := (mul_eq_zero.mp hx).resolve_left hne
    have hy' := (mul_eq_zero.mp hy).resolve_left hne
    exact Point.ext (by linarith) (by linarith)
  · intro hdet
    unfold circumcenter
    dsimp only
    rw [if_pos hdet]

/-- Witness for C7 at the right triangle `(0,0), (2,0), (0,2)` (with
`det = 4`): the returned point is equidistant from the three vertices, and
the explicitly checked equidistant point `(1,1)` is indeed it. -/
theorem circumcenter_spec_witness :
    distSq (circumcenter ⟨0, 0⟩ ⟨2, 0⟩ ⟨0, 2⟩) ⟨0, 0⟩ =
      distSq (circumcenter ⟨0, 0⟩ ⟨2, 0⟩ ⟨0, 2⟩) ⟨2, 0⟩ ∧
    (⟨1, 1⟩ : Point) = circumcenter ⟨0, 0⟩ ⟨2, 0⟩ ⟨0, 2⟩ :=
  ⟨((circumcenter_spec ⟨0, 0⟩ ⟨2, 0⟩ ⟨0, 2⟩).1 (by norm_num)).1,
   ((circumcenter_spec ⟨0, 0⟩ ⟨2, 0⟩ ⟨0, 2⟩).1 (by norm_num)).2.2 ⟨1, 1⟩
     (by norm_num [distSq]) (by norm_num [distSq])⟩

/-- Unfolding of one write of the `pointEdge` precompute. -/
theorem pointEdgeStep_apply (triangles : List ℕ) (halfedges : List ℤ) (n : ℕ)
    (pe : ℕ → ℤ) (e : ℕ) :
    pointEdgeStep triangles halfedges n pe e =
      if (pe (triangles.getD e 0) = -1 ∨ halfedges.getD e 0 = -1) ∧
          triangles.getD e 0 < n then
        Function.update pe (triangles.getD e 0) (e : ℤ)
      else pe := rfl

/-- Invariant of the `pointEdge` precompute after processing the first `k`
half-edges: the entry for a vertex `v < n` is the most recent sentinel
incident edge if one was seen, otherwise the first incident edge seen,
otherwise the initial `-1`. -/
theorem pointEdgeTable_aux (triangles : List ℕ) (halfedges : List ℤ) (n : ℕ) :
    ∀ k v, v < n →
      (List.range k).foldl (pointEdgeStep triangles halfedges n)
          (fun _ => -1) v =
        (((List.range k).filter (fun e =>
            decide (triangles.getD e 0 = v ∧
              halfedges.getD e 0 = -1))).getLast?.map
          (Nat.cast : ℕ → ℤ)).getD
          ((((List.range k).filter (fun e =>
              decide (triangles.getD e 0 = v))).head?.map
            (Nat.cast : ℕ → ℤ)).getD (-1)) := by
  intro k
  induction k with
  | zero => intro v hv; simp
  | succ k ih =>
    intro v hv
    rw [List.range_succ, List.foldl_append, List.filter_append,
      List.filter_append]
    simp only [List.foldl_cons, List.foldl_nil]
    rw [pointEdgeStep_apply]
    by_cases hocc : triangles.getD k 0 = v
    · by_cases hhe : halfedges.getD k 0 = -1
      · -- sentinel occurrence of v at k: it wins
        have hd : triangles.getD k 0 = v ∧ halfedges.getD k 0 = -1 :=
          ⟨hocc, hhe⟩
        have hfs : List.filter (fun e =>
            decide (triangles.getD e 0 = v ∧ halfedges.getD e 0 = -1)) [k] =
            [k] := by
          rw [List.filter_singleton, decide_eq_true hd]
          rfl
        rw [hfs, List.getLast?_concat, hocc]
        have hcondT : ((List.range k).foldl
            (pointEdgeStep triangles halfedges n) (fun _ => -1) v = -1 ∨
            halfedges.getD k 0 = -1) ∧ v < n := ⟨Or.inr hhe, hv⟩
        rw [if_pos hcondT, Function.update_same]
        simp
      · -- non-sentinel occurrence of v at k
        have hd : ¬(triangles.getD k 0 = v ∧ halfedges.getD k 0 = -1) :=
          fun h => hhe h.2
        have hfs : List.filter (fun e =>
            decide (triangles.getD e 0 = v ∧ halfedges.getD e 0 = -1)) [k] =
            [] := by
          rw [List.filter_singleton, decide_eq_false hd]
          rfl
        have hfo : List.filter (fun e =>
            decide (triangles.getD e 0 = v)) [k] = [k] := by
          rw [List.filter_singleton, decide_eq_true hocc]
          rfl
        rw [hfs, hfo, List.append_nil, hocc]
        by_cases hFv : (List.range k).foldl
            (pointEdgeStep triangles halfedges n) (fun _ => -1) v = -1
        · -- no prior write: k is the first occurrence
          have hcondT : ((List.range k).foldl
              (pointEdgeStep triangles halfedges n) (fun _ => -1) v = -1 ∨
              halfedges.getD k 0 = -1) ∧ v < n := ⟨Or.inl hFv, hv⟩
          rw [if_pos hcondT, Function.update_same]
          have hih := ih v hv
          rw [hFv] at hih
          cases hS : (List.filter (fun e =>
              decide (triangles.getD e 0 = v ∧ halfedges.getD e 0 = -1))
              (List.range k)).getLast? with
          | some e =>
            rw [hS] at hih
            simp only [Option.map_some', Option.getD_some] at hih
            exfalso
            omega
          | none =>
            rw [hS] at hih
            simp only [Option.map_none', Option.getD_none] at hih
            cases hO : (List.filter (fun e =>
                decide (triangles.getD e 0 = v)) (List.range k)).head? with
            | some e =>
              rw [hO] at hih
              simp only [Option.map_some', Option.getD_some] at hih
              exfalso
              omega
            | none =>
              rw [List.head?_append, hO]
              simp
        · -- a prior write exists and is kept
          have hcond : ¬(((List.range k).foldl
              (pointEdgeStep triangles halfedges n) (fun _ => -1) v = -1 ∨
              halfedges.getD k 0 = -1) ∧ v < n) := by
            rintro ⟨h | h, -⟩
            · exact hFv h
            · exact hhe h
          rw [if_neg hcond, ih v hv]
          cases hS : (List.filter (fun e =>
              decide (triangles.getD e 0 = v ∧ halfedges.getD e 0 = -1))
              (List.range k)).getLast? with
          | some e => simp
          | none =>
            cases hO : (List.filter (fun e =>
                decide (triangles.getD e 0 = v)) (List.range k)).head? with
            | none =>
              exfalso
              apply hFv
              rw [ih v hv, hS, hO]
              simp
            | some e =>
              rw [List.head?_append, hO]
              simp
    · -- k is not an occurrence of v: nothing changes for v
      have hd : ¬(triangles.getD k 0 = v ∧ halfedges.getD k 0 = -1) :=
        fun h => hocc h.1
      have hfs : List.filter (fun e =>
          decide (triangles.getD e 0 = v ∧ halfedges.getD e 0 = -1)) [k] =
          [] := by
        rw [List.filter_singleton, decide_eq_false hd]
        rfl
      have hfo : List.filter (fun e =>
          decide (triangles.getD e 0 = v)) [k] = [] := by
        rw [List.filter_singleton, decide_eq_false hocc]
        rfl
      rw [hfs, hfo, List.append_nil, List.append_nil]
      split_ifs with hcond
      · rw [Function.update_noteq (fun h => hocc h.symm)]
        exact ih v hv
      · exact ih v hv

/-- Counterexample to C6 as stated: in the fan triangulation of a square
around its centre (vertex 4), every half-edge out of the centre has a
neighbor (no sentinel), the last-seen incident half-edge of vertex 4 is 11,
yet the precompute records 2 (the first-seen incident edge): without a
sentinel edge the table keeps the first occurrence, not the last. -/
theorem pointEdgeTable_not_lastSeen :
    pointEdgeTable [0, 1, 4, 1, 2, 4, 2, 3, 4, 3, 0, 4]
        [-1, 5, 10, -1, 8, 1, -1, 11, 4, -1, 2, 7] 5 4 = 2 ∧
    ((List.range 12).filter (fun e =>
      decide (([0, 1, 4, 1, 2, 4, 2, 3, 4, 3, 0, 4] : List ℕ).getD e 0 =
        4))).getLast? = some 11 ∧
    ((List.range 12).filter (fun e =>
      decide (([0, 1, 4, 1, 2, 4, 2, 3, 4, 3, 0, 4] : List ℕ).getD e 0 = 4 ∧
        ([-1, 5, 10, -1, 8, 1, -1, 11, 4, -1, 2, 7] : List ℤ).getD e 0 =
          -1))) = [] ∧
    (2 : ℤ) ≠ 11 := by decide

/-- C6 (amended).  Incident-edge selection: after the one-pass precompute,
for every vertex `v` in table range, the recorded entry is the last-seen
incident half-edge among those whose adjacency is the no-neighbor sentinel
if any such edge exists, otherwise the first-seen incident half-edge of `v`
(and `-1` if `v` never occurs). -/
theorem pointEdgeTable_characterization (triangles : List ℕ)
    (halfedges : List ℤ) (n v : ℕ) (hv : v < n) :
    pointEdgeTable triangles halfedges n v =
      (((List.range triangles.length).filter (fun e =>
          decide (triangles.getD e 0 = v ∧
            halfedges.getD e 0 = -1))).getLast?.map
        (Nat.cast : ℕ → ℤ)).getD
        ((((List.range triangles.length).filter (fun e =>
            decide (triangles.getD e 0 = v))).head?.map
          (Nat.cast : ℕ → ℤ)).getD (-1)) := by
  unfold pointEdgeTable
  exact pointEdgeTable_aux triangles halfedges n triangles.length v hv

/-- Witness for the amended C6 at the square-fan counterexample data:
the characterisation evaluates to the first-seen incident edge 2. -/
theorem pointEdgeTable_characterization_witness :
    pointEdgeTable [0, 1, 4, 1, 2, 4, 2, 3, 4, 3, 0, 4]
      [-1, 5, 10, -1, 8, 1, -1, 11, 4, -1, 2, 7] 5 4 = 2 :=
  (pointEdgeTable_characterization [0, 1, 4, 1, 2, 4, 2, 3, 4, 3, 0, 4]
    [-1, 5, 10, -1, 8, 1, -1, 11, 4, -1, 2, 7] 5 4 (by norm_num)).trans
    (by decide)
